import Mathlib

/-!
Verification of the automata-py cellular-automata core
(`automata/core.py`): rule encoding/decoding, the pattern-to-output
table, the lattice engine with its boundary conditions, and the
slice/highlight bounds validation.  Python integers are modelled as
`Int` (or `Nat` where the source value is provably non-negative),
Python strings as `List Char`, raising exceptions as `Except String`
or `Option`, and `None`-able arguments as `Option`.
-/

namespace Automata

/-- Source `Rule.ALPHABET`: the 36 digit symbols. -/
def ALPHABET : List Char := "0123456789ABCDEFGHIJKLMNOPQRSTUVWXYZ".toList

/-- The digit list built by `Rule._encode`'s comprehension
`[ALPHABET[value // base**i % base] for i in range(length)][::-1]`.
The index `value // base**i % base` is always below 36 when
`base <= 36`, so the `getD` default is never produced then. -/
def encodeDigits (value base length : Nat) : List Char :=
  ((List.range length).map (fun i => ALPHABET.getD (value / base ^ i % base) '?')).reverse

/-- Computes `sum(ALPHABET.index(digit) * base**i for i, digit in enumerate(xs))`
for a least-significant-first list of digit values `xs`, with the
running exponent made explicit. -/
def weightedSum (base : Nat) : Nat → List Nat → Nat
  | _, [] => 0
  | k, d :: rest => d * base ^ k + weightedSum base (k + 1) rest

/-- Source class `Rule` (the data carried by a successfully constructed instance).
`input_span`, `n_input_patterns` and `n_rules` are derived values
(`3`, `base ^ 3`, `base ^ base ^ 3`) and are not stored. -/
structure Rule where
  base : Nat
  rule_number : Int
  encoding : List Char
  pattern_to_output : List (List Char × Char)
  deriving DecidableEq, Repr

/-- Source `Rule._encode(value, base, length)`.  The final `'{:>...}'.format`
padding in the source is a no-op because the digit list already has
exactly `length` entries. -/
def Rule._encode (value base length : Nat) : Except String (List Char) :=
  if ALPHABET.length < base then
    .error "Base too large. Can\x27t handle base > 36"
  else
    .ok (encodeDigits value base length)

/-- Source `Rule._decode(encoding, base)`:
`sum(ALPHABET.index(digit) * base**i for i, digit in enumerate(reversed(encoding)))`. -/
def Rule._decode (encoding : List Char) (base : Nat) : Except String Nat :=
  if ALPHABET.length < base then
    .error "Base too large. Can\x27t handle base > 36"
  else
    .ok (weightedSum base 0 (encoding.reverse.map (fun digit => ALPHABET.indexOf digit)))

/-- Evaluate `f` on each element, propagating the first raised
exception (a Python list comprehension over a fallible body). -/
def exceptMapList (f : α → Except String β) : List α → Except String (List β)
  | [] => .ok []
  | a :: l =>
    match f a with
    | .error e => .error e
    | .ok b =>
      match exceptMapList f l with
      | .error e => .error e
      | .ok bs => .ok (b :: bs)

/-- Source `Rule.__init__(rule_number, base)`: validates the rule number
against `n_rules = base ** base ** 3`, computes the encoding, and
builds `pattern_to_output` by zipping the reversed pattern list with
the encoding (`CellularAutomataError` appends a final `"."` to the
message, hence the doubled dot). -/
def mkRule (rule_number : Int) (base : Nat) : Except String Rule :=
  let input_span := 3
  let n_input_patterns := base ^ input_span
  let n_rules := base ^ n_input_patterns
  if rule_number < 0 ∨ (n_rules : Int) - 1 < rule_number then
    .error ("Invalid rule number. Must be between 0 and " ++ toString (n_rules - 1) ++ "..")
  else
    match Rule._encode rule_number.toNat base n_input_patterns with
    | .error e => .error e
    | .ok encoding =>
      match exceptMapList (fun i => Rule._encode i base input_span) (List.range encoding.length) with
      | .error e => .error e
      | .ok input_patterns =>
        .ok ⟨base, rule_number, encoding, input_patterns.reverse.zip encoding⟩

/-- Source dataclass `HighlightBounds`: four `None`-able integer fields. -/
structure HighlightBounds where
  start_step : Option Int
  steps : Option Int
  offset : Option Int
  width : Option Int
  deriving DecidableEq, Repr

/-- Source dataclass `SliceSpec`: two `None`-able integer fields. -/
structure SliceSpec where
  start_step : Option Int
  steps : Option Int
  deriving DecidableEq, Repr

/-- Source `CellularAutomata._get_boundary_values(current_row)`.  `none`
models the `IndexError` raised by `current_row[-1]` / `current_row[0]`
on an empty row and the fall-through `None` return for an
unrecognised boundary condition (both unreachable after
construction-time validation). -/
def getBoundaryValues (boundary_condition : String) (current_row : List Char) :
    Option (Char × Char) :=
  if boundary_condition = "zero" then
    some (ALPHABET.getD 0 '?', ALPHABET.getD 0 '?')
  else if boundary_condition = "periodic" then
    match current_row.getLast?, current_row.head? with
    | some l, some h => some (l, h)
    | _, _ => none
  else if boundary_condition = "one" then
    some (ALPHABET.getD 1 '?', ALPHABET.getD 1 '?')
  else
    none

/-- Evaluate `f` on each element, propagating failure (a Python list
comprehension whose body may raise `KeyError`). -/
def optionMapList (f : α → Option β) : List α → Option (List β)
  | [] => some []
  | a :: l =>
    match f a with
    | none => none
    | some b =>
      match optionMapList f l with
      | none => none
      | some bs =>
        some (b :: bs)

/-- One iteration of the loop in `CellularAutomata._compute_automaton`:
extend the previous row with the boundary values, form the
left/center/right 3-symbol windows (the three slices
`ext[:-2]`, `ext[1:-1]`, `ext[2:]` zipped together), and look each
window up in `pattern_to_output`.  A missing key (Python `KeyError`)
is `none`. -/
def stepRow (rule : Rule) (boundary_condition : String) (prev : List Char) :
    Option (List Char) :=
  match getBoundaryValues boundary_condition prev with
  | none => none
  | some (left_boundary, right_boundary) =>
    let ext := left_boundary :: (prev ++ [right_boundary])
    let patterns := (ext.zip ((ext.drop 1).zip (ext.drop 2))).map
      (fun p => [p.1, p.2.1, p.2.2])
    optionMapList (fun pattern => rule.pattern_to_output.lookup pattern) patterns

/-- The rows written by `for row in range(1, frame_steps)`: `n` rows,
each computed from the one before it, starting from `prev`. -/
def computeRows (rule : Rule) (boundary_condition : String) (prev : List Char) :
    Nat → Option (List (List Char))
  | 0 => some []
  | n + 1 =>
    match stepRow rule boundary_condition prev with
    | none => none
    | some nxt =>
      match computeRows rule boundary_condition nxt n with
      | none => none
      | some rest => some (nxt :: rest)

/-- The `CellularAutomataError` raised when the centered initial
conditions do not fit in the frame. -/
def overflowMsg : String :=
  "Initial conditions overflow the frame boundaries when centered.."

/-- The `CellularAutomataError` raised on an initial-condition symbol
outside the first `base` alphabet symbols. -/
def invalidSymbolMsg (c : Char) : String :=
  "Initial condition contains invalid symbol \x27" ++ Char.toString c ++ "\x27.."

/-- Models the uncaught `IndexError` from writing row 0 of a
zero-row lattice (`frame_steps = 0`). -/
def indexErrorMsg : String := "IndexError: row 0 does not exist."

/-- Models the uncaught `KeyError` from a neighborhood pattern absent
from `pattern_to_output`. -/
def keyErrorMsg : String := "KeyError: pattern not in pattern_to_output."

/-- Source class `CellularAutomata` (the data carried by a successfully
constructed instance). -/
structure CA where
  rule : Rule
  rule_number : Int
  frame_width : Nat
  frame_steps : Nat
  boundary_condition : String
  _lattice : List (List Char)
  deriving DecidableEq, Repr

/-- The initial-condition padding of `CellularAutomata.__init__`: an
even-length string gets one quiescent symbol prepended. -/
def padIC (initial_conditions : List Char) : List Char :=
  if initial_conditions.length % 2 = 0 then
    ALPHABET.getD 0 '?' :: initial_conditions
  else initial_conditions

/-- Computes `start = center - len(initial_conditions) // 2` with
`center = frame_width // 2` (Python ints; may be negative). -/
def icStart (frame_width : Nat) (ic : List Char) : Int :=
  ((frame_width / 2 : Nat) : Int) - ((ic.length / 2 : Nat) : Int)

/-- Row 0: the lattice row prefilled with the quiescent symbol and
overwritten with `ic` from position `start` on
(`self._lattice[0, start + idx] = char`). -/
def mkRow0 (frame_width : Nat) (start : Int) (ic : List Char) : List Char :=
  List.replicate start.toNat (ALPHABET.getD 0 '?') ++ ic ++
    List.replicate (frame_width - (start.toNat + ic.length)) (ALPHABET.getD 0 '?')

/-- Source `CellularAutomata.__init__`: validate the boundary condition,
build the `Rule`, left-pad an even-length initial-condition string
with one quiescent symbol, center it (`start = frame_width//2 -
len(ic)//2`), check for overflow, check every symbol, seed row 0, and
compute the remaining `frame_steps - 1` rows. -/
def mkCA (rule_number : Int) (initial_conditions : List Char) (base : Nat)
    (frame_width frame_steps : Nat) (boundary_condition : String) :
    Except String CA :=
  if ¬(boundary_condition = "zero" ∨ boundary_condition = "periodic" ∨
      boundary_condition = "one") then
    .error "Invalid boundary condition. Must be one of zero, periodic, one.."
  else
    match mkRule rule_number base with
    | .error e => .error e
    | .ok rule =>
      let ic := padIC initial_conditions
      let start : Int := icStart frame_width ic
      if start < 0 ∨ (frame_width : Int) < start + ic.length then
        .error overflowMsg
      else
        match ic.find? (fun c => !((ALPHABET.take base).contains c)) with
        | some c => .error (invalidSymbolMsg c)
        | none =>
          if frame_steps = 0 then .error indexErrorMsg
          else
            let row0 := mkRow0 frame_width start ic
            match computeRows rule boundary_condition row0 (frame_steps - 1) with
            | none => .error keyErrorMsg
            | some rest =>
              .ok ⟨rule, rule_number, frame_width, frame_steps, boundary_condition,
                row0 :: rest⟩

/-- The `raise` sites of the `slice_spec.steps` block of
`CellularAutomata._validate_slice_bounds` (first message wins, as in
the source's sequential `raise` statements). -/
def sliceStepsError (frame_steps : Nat) (slice_spec : SliceSpec) : Option String :=
  match slice_spec.steps with
  | some k =>
    if k < 1 then
      some ("Invalid slice steps " ++ toString k ++ ". Must be >= 1..")
    else
      let fixed_start_step := slice_spec.start_step.getD 0
      if (frame_steps : Int) - fixed_start_step < k then
        some ("Invalid slice steps " ++ toString k ++ ". Must be <= " ++
          toString ((frame_steps : Int) - fixed_start_step) ++ "..")
      else none
  | none => none

/-- The `raise` sites of the `check_bounds` block of
`CellularAutomata._validate_slice_bounds`. -/
def sliceError (frame_steps : Nat) (slice_spec : SliceSpec) : Option String :=
  match slice_spec.start_step with
  | some st =>
    if st < 0 then
      some ("Invalid slice start step " ++ toString st ++ ". Must be >= 0..")
    else if (frame_steps : Int) ≤ st then
      some ("Invalid slice start step " ++ toString st ++ ". Must be < " ++
        toString frame_steps ++ "..")
    else sliceStepsError frame_steps slice_spec
  | none => sliceStepsError frame_steps slice_spec

/-- The clamping of `validated_start_step` in
`_validate_slice_bounds`: `None` or negative becomes `0`, too large
becomes `frame_steps - 1`. -/
def clampStart (frame_steps : Nat) (start_step : Option Int) : Int :=
  match start_step with
  | none => 0
  | some st =>
    if st < 0 then 0
    else if (frame_steps : Int) ≤ st then (frame_steps : Int) - 1
    else st

/-- The clamping of `validated_steps` in `_validate_slice_bounds`
(performed after the start step was clamped): `None` or `< 1` becomes
`1`, too large becomes `frame_steps - validated_start_step`. -/
def clampSteps (frame_steps : Nat) (validated_start_step : Int)
    (steps : Option Int) : Int :=
  match steps with
  | none => 1
  | some k =>
    if k < 1 then 1
    else if (frame_steps : Int) - validated_start_step < k then
      (frame_steps : Int) - validated_start_step
    else k

/-- Source `CellularAutomata._validate_slice_bounds(slice_spec, check_bounds)`:
an absent spec defaults to the full grid; otherwise the bounds are
checked (when requested) and then clamped into range. -/
def validateSliceBounds (frame_steps : Nat) (spec : Option SliceSpec)
    (check_bounds : Bool) : Except String SliceSpec :=
  match spec with
  | none => .ok ⟨some 0, some (frame_steps : Int)⟩
  | some s =>
    match (if check_bounds then sliceError frame_steps s else none) with
    | some e => .error e
    | none =>
      .ok ⟨some (clampStart frame_steps s.start_step),
        some (clampSteps frame_steps (clampStart frame_steps s.start_step) s.steps)⟩

/-- Python's `l[a:b]` for the validated (hence non-negative) slice
bounds produced by `validateSliceBounds`. -/
def pySlice (l : List (List Char)) (a b : Int) : List (List Char) :=
  (l.drop a.toNat).take (b - a).toNat

/-- Source `CellularAutomata.lattice(slice_steps)`: validate with
`check_bounds=True`, then take `self._lattice[start : start + steps]`
(`SliceSpec.range`).  A validated spec always has both fields set, so
the `getD 0` defaults are never exercised. -/
def CA.lattice (ca : CA) (slice_steps : Option SliceSpec) :
    Except String (List (List Char)) :=
  match validateSliceBounds ca.frame_steps slice_steps true with
  | .error e => .error e
  | .ok v =>
    .ok (pySlice ca._lattice (v.start_step.getD 0)
      (v.start_step.getD 0 + v.steps.getD 0))

/-- Python truthiness of a `None`-able integer, as used by the
`all([...])` guards in `_validate_highlight_bounds`: `None` and `0`
are falsy. -/
def truthy : Option Int → Bool
  | none => false
  | some v => v != 0

/-- Source `CellularAutomata._validate_highlight_bounds(highlight, check_bounds)`:
collect the error messages of every violated (and guarded) bound
check, raise them joined if any, otherwise fill in defaults and clamp
a negative start.  The guards reproduce the source's
`all([...])` tests, which skip a check when a governing field is
`None` *or zero*. -/
def validateHighlightBounds (frame_steps frame_width : Nat)
    (highlight : HighlightBounds) (check_bounds : Bool) :
    Except String HighlightBounds :=
  let error_messages : List String :=
    if check_bounds then
      (if truthy highlight.start_step && truthy highlight.steps then
        (if (frame_steps : Int) < highlight.start_step.getD 0 + highlight.steps.getD 0 then
          ["highlight starts at step " ++ toString (highlight.start_step.getD 0) ++
            " and ends at step " ++
            toString (highlight.start_step.getD 0 + highlight.steps.getD 0) ++
            " (> " ++ toString frame_steps ++ ")"]
        else [])
      else []) ++
      (if truthy highlight.start_step then
        (if highlight.start_step.getD 0 < 0 then ["highlight starts before step 0"]
        else [])
      else []) ++
      (if truthy highlight.offset && truthy highlight.width then
        (if (frame_width : Int) <
            ((frame_width : Int) + highlight.width.getD 0) / 2 + highlight.offset.getD 0 then
          ["highlight exceeds right bound with " ++
            toString (((frame_width : Int) + highlight.width.getD 0) / 2 +
              highlight.offset.getD 0) ++ " (> " ++ toString frame_width ++ ")"]
        else []) ++
        (if ((frame_width : Int) - highlight.width.getD 0) / 2 + highlight.offset.getD 0 < 0 then
          ["highlight exceeds left bound with " ++
            toString (((frame_width : Int) - highlight.width.getD 0) / 2 +
              highlight.offset.getD 0) ++ " (< 0)"]
        else [])
      else [])
    else []
  if error_messages ≠ [] then
    .error (String.intercalate ", " error_messages ++ ".")
  else
    let start_step : Int := highlight.start_step.getD 0
    let steps : Int :=
      match highlight.steps with
      | none => (frame_steps : Int) - start_step
      | some k => k
    let offset : Int := highlight.offset.getD 0
    let width : Int :=
      match highlight.width with
      | none => (frame_width : Int)
      | some w => w
    if start_step < 0 then
      .ok ⟨some 0, some (max 0 (steps + start_step)), some offset, some width⟩
    else
      .ok ⟨some start_step, some steps, some offset, some width⟩

/-- The `Rule` produced by `Rule(30, base=2)`. -/
def rule30val : Rule :=
  { base := 2, rule_number := 30,
    encoding := "00011110".toList,
    pattern_to_output :=
      [("111".toList, '0'), ("110".toList, '0'), ("101".toList, '0'),
       ("100".toList, '1'), ("011".toList, '1'), ("010".toList, '1'),
       ("001".toList, '1'), ("000".toList, '0')] }

/-- The `CellularAutomata` produced by
`CellularAutomata(30, "1", base=2, frame_width=5, frame_steps=3, boundary_condition="zero")`. -/
def caVal : CA :=
  { rule := rule30val, rule_number := 30, frame_width := 5, frame_steps := 3,
    boundary_condition := "zero",
    _lattice := ["00100".toList, "01110".toList, "11001".toList] }

/-- The `CellularAutomata` produced by
`CellularAutomata(30, "11", base=2, frame_width=5, frame_steps=2, boundary_condition="zero")`
(even-length initial conditions, padded to `"011"`). -/
def caVal2 : CA :=
  { rule := rule30val, rule_number := 30, frame_width := 5, frame_steps := 2,
    boundary_condition := "zero",
    _lattice := ["00110".toList, "01101".toList] }

/-- The least-significant-first digit values of `n` in base `b`
(the comprehension of `Rule._encode` before applying `ALPHABET` and
reversing). -/
def natDigitsLSF (n b L : Nat) : List Nat :=
  (List.range L).map (fun i => n / b ^ i % b)

/-! ## Auxiliary lemmas -/

theorem alphabet_length : ALPHABET.length = 36 := rfl

theorem alphabet_indexOf_getD {d : Nat} (hd : d < 36) :
    ALPHABET.indexOf (ALPHABET.getD d '?') = d := by
  have h : ∀ d : Fin 36, ALPHABET.indexOf (ALPHABET.getD d.val '?') = d.val := by decide
  exact h ⟨d, hd⟩

theorem weightedSum_succ (base : Nat) (l : List Nat) :
    ∀ k, weightedSum base (k + 1) l = base * weightedSum base k l := by
  induction l with
  | nil => intro k; simp [weightedSum]
  | cons d rest ih =>
    intro k
    simp only [weightedSum, ih (k + 1), pow_succ]
    ring

theorem natDigitsLSF_succ (n b L : Nat) :
    natDigitsLSF n b (L + 1) = (n % b) :: natDigitsLSF (n / b) b L := by
  unfold natDigitsLSF
  rw [List.range_succ_eq_map, List.map_cons, List.map_map]
  congr 1
  · simp
  · apply List.map_congr_left
    intro i _hi
    simp only [Function.comp_apply, Nat.succ_eq_add_one, pow_succ']
    rw [Nat.div_div_eq_div_mul]

theorem weightedSum_natDigits (b : Nat) (_hb : 0 < b) :
    ∀ L n, weightedSum b 0 (natDigitsLSF n b L) = n % b ^ L := by
  intro L
  induction L with
  | zero => intro n; simp [natDigitsLSF, weightedSum, Nat.mod_one]
  | succ L ih =>
    intro n
    rw [natDigitsLSF_succ, weightedSum, weightedSum_succ, ih (n / b), pow_succ',
      Nat.mod_mul]
    ring

theorem decode_encodeDigits (b : Nat) (hb1 : 0 < b) (hb36 : b ≤ 36) (L n : Nat) :
    weightedSum b 0 ((encodeDigits n b L).reverse.map (fun d => ALPHABET.indexOf d)) =
      n % b ^ L := by
  unfold encodeDigits
  rw [List.reverse_reverse, List.map_map]
  have hmap :
      List.map ((fun d => ALPHABET.indexOf d) ∘ fun i => ALPHABET.getD (n / b ^ i % b) '?')
        (List.range L) = List.map (fun i => n / b ^ i % b) (List.range L) := by
    apply List.map_congr_left
    intro i _hi
    exact alphabet_indexOf_getD (lt_of_lt_of_le (Nat.mod_lt _ hb1) hb36)
  rw [hmap]
  exact weightedSum_natDigits b hb1 L n

theorem encode_ok {b : Nat} (hb : b ≤ 36) (v L : Nat) :
    Rule._encode v b L = .ok (encodeDigits v b L) := by
  rw [Rule._encode, if_neg]
  rw [alphabet_length]
  omega

theorem exceptMapList_ok {α β : Type} {f : α → Except String β} {g : α → β}
    {l : List α} (h : ∀ a ∈ l, f a = .ok (g a)) :
    exceptMapList f l = .ok (l.map g) := by
  induction l with
  | nil => simp [exceptMapList]
  | cons a l ih =>
    rw [exceptMapList, h a (List.mem_cons_self a l),
      ih (fun x hx => h x (List.mem_cons_of_mem a hx))]
    simp

theorem encodeDigits_length (v b L : Nat) : (encodeDigits v b L).length = L := by
  simp [encodeDigits]

/-- Anatomy of a successful `Rule` construction. -/
theorem mkRule_ok_spec {rn : Int} {b : Nat} {r : Rule} (h : mkRule rn b = .ok r) :
    0 ≤ rn ∧ rn < ((b ^ b ^ 3 : Nat) : Int) ∧ b ≤ 36 ∧
    r.base = b ∧ r.rule_number = rn ∧
    r.encoding = encodeDigits rn.toNat b (b ^ 3) ∧
    r.pattern_to_output =
      ((List.range (b ^ 3)).map (fun i => encodeDigits i b 3)).reverse.zip r.encoding := by
  by_cases hb : b ≤ 36
  · simp only [mkRule] at h
    split at h
    · exact absurd h (by simp)
    · rw [encode_ok hb] at h
      dsimp only [] at h
      rw [exceptMapList_ok (g := fun i => encodeDigits i b 3)
        (fun a _ => encode_ok hb a 3)] at h
      dsimp only [] at h
      simp only [Except.ok.injEq] at h
      subst h
      refine ⟨by omega, by omega, hb, rfl, rfl, rfl, ?_⟩
      simp [encodeDigits_length]
  · exfalso
    simp only [mkRule] at h
    split at h
    · exact absurd h (by simp)
    · rw [Rule._encode, if_pos (by rw [alphabet_length]; omega)] at h
      exact absurd h (by simp)

theorem getD_mem_take {d b : Nat} (hd : d < b) (hb : b ≤ 36) :
    ALPHABET.getD d '?' ∈ ALPHABET.take b := by
  have hlt : d < (ALPHABET.take b).length := by
    simp only [List.length_take, alphabet_length]
    omega
  have hgd : (ALPHABET.take b)[d] = ALPHABET.getD d '?' := by
    rw [List.getElem_take, List.getD_eq_getElem ALPHABET '?' (by rw [alphabet_length]; omega)]
  rw [← hgd]
  exact List.getElem_mem hlt

theorem encodeDigits_mem_take {c : Char} {v b L : Nat} (hb1 : 0 < b) (hb36 : b ≤ 36)
    (hc : c ∈ encodeDigits v b L) : c ∈ ALPHABET.take b := by
  unfold encodeDigits at hc
  rw [List.mem_reverse] at hc
  obtain ⟨i, -, rfl⟩ := List.mem_map.mp hc
  exact getD_mem_take (Nat.mod_lt _ hb1) hb36

theorem optionMapList_mem {α β : Type} {f : α → Option β} :
    ∀ {l : List α} {out : List β}, optionMapList f l = some out →
      ∀ {y : β}, y ∈ out → ∃ x ∈ l, f x = some y := by
  intro l
  induction l with
  | nil =>
    intro out h y hy
    simp only [optionMapList, Option.some.injEq] at h
    subst h
    cases hy
  | cons a l ih =>
    intro out h y hy
    rw [optionMapList] at h
    rcases hfa : f a with _ | b
    · simp [hfa] at h
    · rcases hml : optionMapList f l with _ | bs
      · simp [hfa, hml] at h
      · simp only [hfa, hml, Option.some.injEq] at h
        subst h
        rcases List.mem_cons.mp hy with rfl | hmem
        · exact ⟨a, List.mem_cons_self a l, hfa⟩
        · obtain ⟨x, hx, hfx⟩ := ih hml hmem
          exact ⟨x, List.mem_cons_of_mem a hx, hfx⟩

theorem lookup_pair_mem {α β : Type} [BEq α] [LawfulBEq α]
    {l : List (α × β)} {k : α} {v : β}
    (h : l.lookup k = some v) : (k, v) ∈ l := by
  induction l with
  | nil => simp [List.lookup] at h
  | cons p l ih =>
    obtain ⟨pk, pv⟩ := p
    rw [List.lookup] at h
    rcases hbeq : k == pk with _ | _
    · simp only [hbeq] at h
      exact List.mem_cons_of_mem _ (ih h)
    · simp only [hbeq, Option.some.injEq] at h
      subst h
      rw [eq_of_beq hbeq]
      exact List.mem_cons_self _ l

theorem stepRow_mem {rule : Rule} {bc : String} {prev out : List Char}
    (h : stepRow rule bc prev = some out) {c : Char} (hc : c ∈ out) :
    ∃ pr ∈ rule.pattern_to_output, pr.2 = c := by
  rw [stepRow] at h
  rcases hbv : getBoundaryValues bc prev with _ | ⟨l, r⟩
  · simp [hbv] at h
  · simp only [hbv] at h
    obtain ⟨pat, -, hpat⟩ := optionMapList_mem h hc
    exact ⟨(pat, c), lookup_pair_mem hpat, rfl⟩

theorem computeRows_mem {rule : Rule} {bc : String} :
    ∀ {n : Nat} {prev : List Char} {rows : List (List Char)},
      computeRows rule bc prev n = some rows →
      ∀ {row : List Char}, row ∈ rows → ∀ {c : Char}, c ∈ row →
        ∃ pr ∈ rule.pattern_to_output, pr.2 = c := by
  intro n
  induction n with
  | zero =>
    intro prev rows h row hrow c hc
    simp only [computeRows, Option.some.injEq] at h
    subst h
    cases hrow
  | succ n ih =>
    intro prev rows h row hrow c hc
    rw [computeRows] at h
    rcases hs : stepRow rule bc prev with _ | nxt
    · simp [hs] at h
    · rcases hrest : computeRows rule bc nxt n with _ | rest
      · simp [hs, hrest] at h
      · simp only [hs, hrest, Option.some.injEq] at h
        subst h
        rcases List.mem_cons.mp hrow with rfl | hmem
        · exact stepRow_mem hs hc
        · exact ih hrest hmem hc

theorem padIC_ne_nil (ic : List Char) : padIC ic ≠ [] := by
  rw [padIC]
  split
  · exact List.cons_ne_nil _ _
  · rename_i hodd
    intro hemp
    rw [hemp] at hodd
    exact hodd rfl

/-! ## Claims -/

/-- Claim C1: for `CellularAutomata(rule_number=30, initial_conditions="1000000",
base=2, frame_width=31, frame_steps=10, boundary_condition="zero")`, row 4 of the
computed lattice, joined as a string, is `"0000000011001000100000000000000"`. -/
theorem c1_rule30_row4 :
    (mkCA 30 "1000000".toList 2 31 10 "zero").map
      (fun ca => (ca._lattice.getD 4 []).asString) =
      .ok "0000000011001000100000000000000" := rfl

/-- Claim C2: for every base `2 ≤ b ≤ 36`, length `L ≥ 1` and `n < b ^ L`,
`_decode(_encode(n, b, L), b) = n`. -/
theorem c2_encode_decode_roundtrip (b L n : Nat) (hb2 : 2 ≤ b) (hb36 : b ≤ 36)
    (_hL : 1 ≤ L) (hn : n < b ^ L) :
    (Rule._encode n b L).bind (fun s => Rule._decode s b) = .ok n := by
  have hb1 : 0 < b := lt_of_lt_of_le (by norm_num) hb2
  have hlen : ¬ (ALPHABET.length < b) := by rw [alphabet_length]; omega
  rw [Rule._encode, if_neg hlen]
  show Rule._decode (encodeDigits n b L) b = .ok n
  rw [Rule._decode, if_neg hlen, decode_encodeDigits b hb1 hb36 L n,
    Nat.mod_eq_of_lt hn]

theorem c2_witness : (Rule._encode 5 2 3).bind (fun s => Rule._decode s 2) = .ok 5 :=
  c2_encode_decode_roundtrip 2 3 5 (by decide) (by decide) (by decide) (by decide)

/-- Claim C5: for `2 ≤ b ≤ 36`, `Rule(rule_number, b)` succeeds iff
`0 ≤ rule_number < b ** (b ** 3)`, and out-of-range rule numbers fail
with the "invalid rule number" error stating the range `[0, n_rules - 1]`. -/
theorem c5_rule_number_validation (rn : Int) (b : Nat) (_hb2 : 2 ≤ b) (hb36 : b ≤ 36) :
    ((∃ r, mkRule rn b = .ok r) ↔ 0 ≤ rn ∧ rn < ((b ^ b ^ 3 : Nat) : Int)) ∧
    (¬(0 ≤ rn ∧ rn < ((b ^ b ^ 3 : Nat) : Int)) →
      mkRule rn b =
        .error ("Invalid rule number. Must be between 0 and " ++
          toString (b ^ b ^ 3 - 1) ++ "..")) := by
  constructor
  · constructor
    · rintro ⟨r, hr⟩
      have hs := mkRule_ok_spec hr
      exact ⟨hs.1, hs.2.1⟩
    · rintro ⟨h0, h1⟩
      have hok : mkRule rn b = .ok
          ⟨b, rn, encodeDigits rn.toNat b (b ^ 3),
            ((List.range (b ^ 3)).map (fun i => encodeDigits i b 3)).reverse.zip
              (encodeDigits rn.toNat b (b ^ 3))⟩ := by
        simp only [mkRule]
        rw [if_neg (by omega), encode_ok hb36]
        dsimp only []
        rw [exceptMapList_ok (g := fun i => encodeDigits i b 3)
          (fun a _ => encode_ok hb36 a 3)]
        dsimp only []
        rw [encodeDigits_length]
      exact ⟨_, hok⟩
  · intro hnot
    simp only [mkRule]
    rw [if_pos (by omega)]

theorem c5_witness : mkRule 512 2 =
    .error ("Invalid rule number. Must be between 0 and " ++ toString (2 ^ 2 ^ 3 - 1) ++ "..") :=
  (c5_rule_number_validation 512 2 (by decide) (by decide)).2 (by decide)

/-- Claim C3: `pattern_to_output` maps the `base ** 3` neighborhood
patterns, in descending numeric order (position `j` holds the pattern
encoding the value `base ** 3 - 1 - j`), positionally to the digits of
the most-significant-first encoding of the rule number; in particular
for `Rule(30, base=2)`, `pattern_to_output["111"] = "0"`,
`["110"] = "0"`, `["101"] = "0"` and `["011"] = "1"`. -/
theorem c3_pattern_to_output :
    (∀ (b : Nat) (rn : Int) (r : Rule) (j : Nat), 2 ≤ b → b ≤ 36 →
      mkRule rn b = .ok r → j < b ^ 3 →
      r.pattern_to_output[j]? =
        some (encodeDigits (b ^ 3 - 1 - j) b 3, r.encoding.getD j '?')) ∧
    (mkRule 30 2).map (fun r =>
        (r.pattern_to_output.lookup "111".toList,
         r.pattern_to_output.lookup "110".toList,
         r.pattern_to_output.lookup "101".toList,
         r.pattern_to_output.lookup "011".toList)) =
      .ok (some '0', some '0', some '0', some '1') := by
  constructor
  · intro b rn r j _hb2 hb36 hok hj
    obtain ⟨-, -, -, -, -, henc, hpat⟩ := mkRule_ok_spec hok
    have hlen : r.encoding.length = b ^ 3 := by rw [henc, encodeDigits_length]
    have hlenP : ((List.range (b ^ 3)).map (fun i => encodeDigits i b 3)).length = b ^ 3 := by
      simp
    have hlenR :
        ((List.range (b ^ 3)).map (fun i => encodeDigits i b 3)).reverse.length = b ^ 3 := by
      simp
    have hlenz :
        (((List.range (b ^ 3)).map (fun i => encodeDigits i b 3)).reverse.zip
          r.encoding).length = b ^ 3 := by
      simp [hlen]
    rw [hpat, List.getElem?_eq_getElem (by omega : j < _)]
    apply congrArg some
    rw [List.getElem_zip, List.getElem_reverse, List.getD_eq_getElem r.encoding '?' (by omega)]
    apply Prod.ext
    · simp only [List.getElem_map, List.getElem_range, hlenP]
    · rfl
  · rfl

theorem c3_witness :
    rule30val.pattern_to_output[0]? =
      some (encodeDigits (2 ^ 3 - 1 - 0) 2 3, rule30val.encoding.getD 0 '?') :=
  c3_pattern_to_output.1 2 30 rule30val 0 (by decide) (by decide) rfl (by decide)

/-- Claim C4: the two boundary values extending a previous row are
determined by the boundary policy alone: `"zero"` gives the quiescent
symbol on both sides, `"periodic"` gives (last cell, first cell), and
`"one"` gives the alphabet's second symbol on both sides. -/
theorem c4_boundary_values (row : List Char) (h : row ≠ []) :
    getBoundaryValues "zero" row = some ('0', '0') ∧
    getBoundaryValues "periodic" row = some (row.getLast h, row.head h) ∧
    getBoundaryValues "one" row = some ('1', '1') := by
  refine ⟨rfl, ?_, rfl⟩
  rw [getBoundaryValues, if_neg (by decide), if_pos rfl,
    List.getLast?_eq_getLast row h, List.head?_eq_head h]

theorem c4_witness :
    getBoundaryValues "zero" ['1', '0'] = some ('0', '0') ∧
    getBoundaryValues "periodic" ['1', '0'] = some ('0', '1') ∧
    getBoundaryValues "one" ['1', '0'] = some ('1', '1') :=
  c4_boundary_values ['1', '0'] (by decide)

/-- Claim C6: every cell of the completed lattice of a successfully
constructed `CellularAutomata` holds one of the first `base` alphabet
symbols. -/
theorem c6_cells_in_alphabet (rn : Int) (ic : List Char) (b w s : Nat) (bc : String)
    (ca : CA) (h : mkCA rn ic b w s bc = .ok ca) :
    ∀ row ∈ ca._lattice, ∀ c ∈ row, c ∈ ALPHABET.take b := by
  simp only [mkCA] at h
  split at h
  · exact absurd h (by simp)
  · split at h
    · exact absurd h (by simp)
    · rename_i rule hrule
      split at h
      · exact absurd h (by simp)
      · split at h
        · exact absurd h (by simp)
        · rename_i hfind
          split at h
          · exact absurd h (by simp)
          · split at h
            · exact absurd h (by simp)
            · rename_i rest hcomp
              simp only [Except.ok.injEq] at h
              subst h
              obtain ⟨-, -, hb36, -, -, henc, hpat⟩ := mkRule_ok_spec hrule
              have hsym : ∀ c ∈ padIC ic, c ∈ ALPHABET.take b := by
                intro c hc
                have hnf := List.find?_eq_none.mp hfind c hc
                simpa using hnf
              have hb1 : 0 < b := by
                have hhead := hsym _ (List.head_mem (padIC_ne_nil ic))
                have hne := List.ne_nil_of_mem hhead
                have hlen := List.length_pos.mpr hne
                simp only [List.length_take, alphabet_length] at hlen
                omega
              intro row hrow c hc
              rcases List.mem_cons.mp hrow with rfl | hmem
              · rw [mkRow0] at hc
                rcases List.mem_append.mp hc with h1 | h2
                · rcases List.mem_append.mp h1 with ha | hic1
                  · rw [List.eq_of_mem_replicate ha]
                    exact getD_mem_take hb1 hb36
                  · exact hsym c hic1
                · rw [List.eq_of_mem_replicate h2]
                  exact getD_mem_take hb1 hb36
              · obtain ⟨⟨pk, pv⟩, hpr, hpv⟩ := computeRows_mem hcomp hmem hc
                rw [hpat] at hpr
                have hinz := (List.of_mem_zip hpr).2
                rw [henc] at hinz
                rw [← hpv]
                exact encodeDigits_mem_take hb1 hb36 hinz

theorem c6_witness : '1' ∈ ALPHABET.take 2 :=
  c6_cells_in_alphabet 30 ['1'] 2 5 3 "zero" caVal rfl
    ("11001".toList) (by decide) '1' (by decide)

theorem invalidSymbolMsg_ne_overflowMsg (c : Char) : invalidSymbolMsg c ≠ overflowMsg := by
  intro h
  have hl := congrArg String.length h
  simp only [invalidSymbolMsg, overflowMsg, String.length_append, Char.length_toString] at hl
  revert hl
  decide

/-- Claim C9: construction pads an even-length initial-condition
string with one quiescent symbol on the left, computes
`start = frame_width//2 - len//2` on the padded string, fails with the
"initial conditions overflow" error exactly when `start < 0` or
`start + len > frame_width`, and otherwise (on success) row 0 holds
the padded string at position `start` with every other cell
quiescent. -/
theorem c9_initial_conditions_placement (rn : Int) (ic : List Char) (b w s : Nat)
    (bc : String) (r : Rule)
    (hbc : bc = "zero" ∨ bc = "periodic" ∨ bc = "one")
    (hr : mkRule rn b = .ok r)
    (ic1 : List Char) (hic1 : ic1 = if ic.length % 2 = 0 then '0' :: ic else ic)
    (start : Int) (hst : start = ((w / 2 : Nat) : Int) - ((ic1.length / 2 : Nat) : Int)) :
    ((mkCA rn ic b w s bc = .error overflowMsg) ↔
      (start < 0 ∨ (w : Int) < start + ic1.length)) ∧
    (∀ ca, mkCA rn ic b w s bc = .ok ca →
      ca._lattice.head? =
        some (List.replicate start.toNat '0' ++ ic1 ++
          List.replicate (w - (start.toNat + ic1.length)) '0')) := by
  have hicP : ic1 = padIC ic := hic1
  have hstP : start = icStart w ic1 := hst
  subst hicP
  subst hstP
  have hunf : mkCA rn ic b w s bc =
      (if icStart w (padIC ic) < 0 ∨ (w : Int) < icStart w (padIC ic) + (padIC ic).length then
        .error overflowMsg
      else
        match (padIC ic).find? (fun c => !((ALPHABET.take b).contains c)) with
        | some c => .error (invalidSymbolMsg c)
        | none =>
          if s = 0 then .error indexErrorMsg
          else
            match computeRows r bc (mkRow0 w (icStart w (padIC ic)) (padIC ic)) (s - 1) with
            | none => .error keyErrorMsg
            | some rest =>
              .ok ⟨r, rn, w, s, bc, mkRow0 w (icStart w (padIC ic)) (padIC ic) :: rest⟩) := by
    simp only [mkCA, if_neg (not_not_intro hbc), hr]
  rw [hunf]
  constructor
  · constructor
    · intro herr
      by_cases hcond :
          icStart w (padIC ic) < 0 ∨ (w : Int) < icStart w (padIC ic) + (padIC ic).length
      · exact hcond
      · exfalso
        rw [if_neg hcond] at herr
        rcases hfind : (padIC ic).find? (fun c => !((ALPHABET.take b).contains c)) with _ | c
        · rw [hfind] at herr
          by_cases hs0 : s = 0
          · simp only [if_pos hs0] at herr
            exact absurd (Except.error.inj herr) (by decide)
          · simp only [if_neg hs0] at herr
            rcases hcr :
                computeRows r bc (mkRow0 w (icStart w (padIC ic)) (padIC ic)) (s - 1) with
              _ | rest
            · rw [hcr] at herr
              exact absurd (Except.error.inj herr) (by decide)
            · rw [hcr] at herr
              exact absurd herr (by simp)
        · rw [hfind] at herr
          exact invalidSymbolMsg_ne_overflowMsg c (Except.error.inj herr)
    · intro hcond
      rw [if_pos hcond]
  · intro ca hca
    by_cases hcond :
        icStart w (padIC ic) < 0 ∨ (w : Int) < icStart w (padIC ic) + (padIC ic).length
    · rw [if_pos hcond] at hca
      exact absurd hca (by simp)
    · rw [if_neg hcond] at hca
      rcases hfind : (padIC ic).find? (fun c => !((ALPHABET.take b).contains c)) with _ | c
      · rw [hfind] at hca
        by_cases hs0 : s = 0
        · rw [if_pos hs0] at hca
          exact absurd hca (by simp)
        · rw [if_neg hs0] at hca
          rcases hcr :
              computeRows r bc (mkRow0 w (icStart w (padIC ic)) (padIC ic)) (s - 1) with
            _ | rest
          · rw [hcr] at hca
            exact absurd hca (by simp)
          · rw [hcr] at hca
            have hcaeq := Except.ok.inj hca
            subst hcaeq
            rfl
      · rw [hfind] at hca
        exact absurd hca (by simp)

theorem c9_witness :
    caVal2._lattice.head? =
      some (List.replicate (1 : Int).toNat '0' ++ ['0', '1', '1'] ++
        List.replicate (5 - ((1 : Int).toNat + (['0', '1', '1'] : List Char).length)) '0') :=
  (c9_initial_conditions_placement 30 ['1', '1'] 2 5 2 "zero" rule30val
    (Or.inl rfl) rfl ['0', '1', '1'] rfl 1 rfl).2 caVal2 rfl

theorem CA_lattice_some (ca : CA) (s : SliceSpec) :
    CA.lattice ca (some s) =
      (match sliceError ca.frame_steps s with
       | some e => .error e
       | none =>
         .ok (pySlice ca._lattice (clampStart ca.frame_steps s.start_step)
           (clampStart ca.frame_steps s.start_step +
             clampSteps ca.frame_steps (clampStart ca.frame_steps s.start_step) s.steps))) := by
  rw [CA.lattice]
  rcases h : sliceError ca.frame_steps s with _ | e
  · rw [show validateSliceBounds ca.frame_steps (some s) true =
        .ok ⟨some (clampStart ca.frame_steps s.start_step),
          some (clampSteps ca.frame_steps (clampStart ca.frame_steps s.start_step) s.steps)⟩ by
      rw [validateSliceBounds]
      rw [show (if true then sliceError ca.frame_steps s else none) = none by
        rw [if_pos rfl, h]]]
    rfl
  · rw [show validateSliceBounds ca.frame_steps (some s) true = .error e by
      rw [validateSliceBounds]
      rw [show (if true then sliceError ca.frame_steps s else none) = some e by
        rw [if_pos rfl, h]]]

/-- Claim C8: the lattice accessor with an explicit slice fails
exactly when the slice is out of range (`start_step < 0`,
`start_step ≥ frame_steps`, `steps < 1`, or
`start_step + steps > frame_steps`), and with the slice omitted it
returns the full grid. -/
theorem c8_lattice_slice_validation (ca : CA)
    (hlen : ca._lattice.length = ca.frame_steps) (st k : Int) :
    ((∃ e, CA.lattice ca (some ⟨some st, some k⟩) = .error e) ↔
      (st < 0 ∨ (ca.frame_steps : Int) ≤ st ∨ k < 1 ∨ (ca.frame_steps : Int) < st + k)) ∧
    CA.lattice ca none = .ok ca._lattice := by
  constructor
  · constructor
    · rintro ⟨e, he⟩
      by_contra hnot
      push_neg at hnot
      obtain ⟨h1, h2, h3, h4⟩ := hnot
      have hse : sliceError ca.frame_steps ⟨some st, some k⟩ = none := by
        simp only [sliceError]
        rw [if_neg (by omega), if_neg (by omega)]
        simp only [sliceStepsError]
        rw [if_neg (by omega), if_neg (by simp only [Option.getD_some]; omega)]
      rw [CA_lattice_some, hse] at he
      exact absurd he (by simp)
    · intro hcond
      by_cases h1 : st < 0
      · have hs : (sliceError ca.frame_steps ⟨some st, some k⟩).isSome := by
          simp only [sliceError]
          rw [if_pos h1]
          rfl
        obtain ⟨m, hse⟩ := Option.isSome_iff_exists.mp hs
        exact ⟨m, by rw [CA_lattice_some, hse]⟩
      · by_cases h2 : (ca.frame_steps : Int) ≤ st
        · have hs : (sliceError ca.frame_steps ⟨some st, some k⟩).isSome := by
            simp only [sliceError]
            rw [if_neg h1, if_pos h2]
            rfl
          obtain ⟨m, hse⟩ := Option.isSome_iff_exists.mp hs
          exact ⟨m, by rw [CA_lattice_some, hse]⟩
        · by_cases h3 : k < 1
          · have hs : (sliceError ca.frame_steps ⟨some st, some k⟩).isSome := by
              simp only [sliceError]
              rw [if_neg h1, if_neg h2]
              simp only [sliceStepsError]
              rw [if_pos h3]
              rfl
            obtain ⟨m, hse⟩ := Option.isSome_iff_exists.mp hs
            exact ⟨m, by rw [CA_lattice_some, hse]⟩
          · have h4 : (ca.frame_steps : Int) < st + k := by
              rcases hcond with h | h | h | h
              · exact absurd h h1
              · exact absurd h h2
              · exact absurd h h3
              · exact h
            have hs : (sliceError ca.frame_steps ⟨some st, some k⟩).isSome := by
              simp only [sliceError]
              rw [if_neg h1, if_neg h2]
              simp only [sliceStepsError]
              rw [if_neg h3, if_pos (by simp only [Option.getD_some]; omega)]
              rfl
            obtain ⟨m, hse⟩ := Option.isSome_iff_exists.mp hs
            exact ⟨m, by rw [CA_lattice_some, hse]⟩
  · rw [CA.lattice]
    rw [show validateSliceBounds ca.frame_steps none true =
        .ok ⟨some 0, some (ca.frame_steps : Int)⟩ from rfl]
    dsimp only [Option.getD_some]
    rw [pySlice]
    have hz : ((0 : Int) + (ca.frame_steps : Int) - 0).toNat = ca.frame_steps := by omega
    rw [hz]
    rw [show ((0 : Int)).toNat = 0 from rfl, List.drop_zero, ← hlen, List.take_length]

theorem c8_witness : CA.lattice caVal none = .ok caVal._lattice :=
  (c8_lattice_slice_validation caVal rfl (-1) 2).2

/-- Claim C10: a slice giving `start_step = s` (with `0 ≤ s <
frame_steps`) but leaving `steps` unspecified succeeds and returns
exactly one row, row `s`: the unspecified step count defaults to 1,
not to the remaining rows. -/
theorem c10_slice_steps_default_one (ca : CA)
    (hlen : ca._lattice.length = ca.frame_steps) (st : Int)
    (h0 : 0 ≤ st) (h1 : st < (ca.frame_steps : Int)) :
    ∃ row, ca._lattice[st.toNat]? = some row ∧
      CA.lattice ca (some ⟨some st, none⟩) = .ok [row] := by
  have hse : sliceError ca.frame_steps ⟨some st, none⟩ = none := by
    simp only [sliceError]
    rw [if_neg (by omega), if_neg (by omega)]
    rfl
  have hstlt : st.toNat < ca._lattice.length := by rw [hlen]; omega
  refine ⟨ca._lattice[st.toNat], List.getElem?_eq_getElem hstlt, ?_⟩
  rw [CA_lattice_some, hse]
  have hcs : clampStart ca.frame_steps (some st) = st := by
    simp only [clampStart]
    rw [if_neg (by omega), if_neg (by omega)]
  have hck : clampSteps ca.frame_steps (clampStart ca.frame_steps (some st)) none = 1 := rfl
  dsimp only []
  rw [hck, hcs, pySlice]
  have hone : (st + 1 - st).toNat = 1 := by omega
  rw [hone, List.drop_eq_getElem_cons hstlt]
  rfl

theorem c10_witness :
    CA.lattice caVal (some ⟨some 1, none⟩) = .ok ["01110".toList] := by
  obtain ⟨row, hrow, hlat⟩ :=
    c10_slice_steps_default_one caVal rfl 1 (by decide) (by decide)
  have hxr : "01110".toList = row :=
    Option.some.inj
      ((rfl : caVal._lattice[(1 : Int).toNat]? = some ("01110".toList)).symm.trans hrow)
  rw [← hxr] at hlat
  exact hlat

/-- Claim C7 (evidence of the code bug): in strict mode
(`check_bounds=True`), the explicitly provided highlight
`HighlightBounds(start_step=0, steps=11)` is out of range for
`frame_steps=10` (it ends at step `0 + 11 > 10`), yet
`_validate_highlight_bounds` raises no error: the guard
`all([highlight.start_step, highlight.steps])` treats the provided
`0` as falsy and skips the check, so the bounds pass through
unchanged. -/
theorem c7_zero_start_skips_strict_check :
    ((10 : Int) < 0 + 11) ∧
    validateHighlightBounds 10 31 ⟨some 0, some 11, none, none⟩ true =
      .ok ⟨some 0, some 11, some 0, some 31⟩ :=
  ⟨by norm_num, rfl⟩

end Automata
